import Mathlib

/-!
Shallow embedding of `marker2nii` (src/marker2nii/marker2nii.py).

The program maps a vector of per-ROI marker values onto a labeled 3-D
atlas volume.  We model:

* marker values as `Val α`: either NaN or a finite number drawn from a
  linearly ordered ring `α` (the ordered value domain of the finite
  floats; concrete instances below use `ℤ`, and `ℚ` is equally valid),
* the atlas as a flattened list of integer voxel labels plus an affine,
* `map_to_atlas` as an `Except`-valued function that reproduces the
  source's control flow and error order: the ROI-count assertion
  (line 79), `np.min`/`np.max` over the non-NaN entries (lines 84-85,
  raising on an empty reduction), the per-ROI assignment loop with
  Python's negative-index wrapping semantics for `marker[roi - 1]`
  (lines 87-93), the NaN-masking and background-masking passes
  (lines 95-96), and the header fields `cal_min`/`cal_max` (lines 98-99),
* `os.path.split` / `os.path.splitext` on paths as character lists,
* `read_markers` with its extension whitelist (lines 38-42) — note the
  source list is `[".csv", ".tsv", ".csv"]`, so `.txt` is absent — where
  the results of `np.loadtxt` and `pd.read_csv` are supplied as inputs,
* `prepare_output` against an explicit directory-set filesystem state,
* the driver loop of `main` (lines 158-162).
-/

set_option linter.unusedSectionVars false

deriving instance DecidableEq for Except

namespace Marker2Nii

/-- A float marker value: either NaN or a (finite) number in `α`. -/
inductive Val (α : Type) where
  | nan : Val α
  | num : α → Val α
deriving DecidableEq, Repr

/-- `np.isnan` on a single value. -/
def Val.isNan {α : Type} : Val α → Bool
  | .nan => true
  | .num _ => false

/-- The numeric content of a value, `none` for NaN. -/
def Val.toNum {α : Type} : Val α → Option α
  | .nan => none
  | .num q => some q

/-- The error taxonomy raised by the program (assertion failures,
numpy/pandas exceptions, `FileNotFoundError`). -/
inductive Err where
  | unsupportedFormat
  | roiCountMismatch
  | indexError
  | valueMinEmpty
  | directoryNotFound
deriving DecidableEq, Repr

/-- `np.unique`: the sorted list of distinct values (source line 78). -/
def npUnique (l : List Int) : List Int :=
  (l.dedup).insertionSort (fun a b => a ≤ b)

variable {α : Type} [LinearOrderedRing α]

/-- Python/numpy scalar indexing `v[i]`: a negative index wraps once by
the length; out of range raises `IndexError` (source line 92). -/
def pyIndex (v : List (Val α)) (i : Int) : Except Err (Val α) :=
  let j : Int := if i < 0 then i + (v.length : Int) else i
  if 0 ≤ j then
    match v[j.toNat]? with
    | some x => .ok x
    | none => .error Err.indexError
  else .error Err.indexError

/-- `marker[~np.isnan(marker)]`: the non-NaN entries, in order (line 83). -/
def nonNanVals (v : List (Val α)) : List α :=
  v.filterMap Val.toNum

/-- `np.min` of a 1-D array; raises on an empty reduction (line 84). -/
def npMin (l : List α) : Except Err α :=
  match l with
  | [] => .error Err.valueMinEmpty
  | x :: xs => .ok (xs.foldl min x)

/-- `np.max` of a 1-D array; raises on an empty reduction (line 85). -/
def npMax (l : List α) : Except Err α :=
  match l with
  | [] => .error Err.valueMinEmpty
  | x :: xs => .ok (xs.foldl max x)

/-- The labeled atlas volume: flattened integer voxel labels plus the
spatial affine (the shape is the length of `data`). -/
structure Nifti where
  data : List Int
  affine : List ℚ
deriving DecidableEq, Repr

/-- The output image produced by `map_to_atlas`: voxel data, the affine
copied by `image.new_img_like`, and the `cal_min`/`cal_max` header. -/
structure MarkerImg (α : Type) where
  data : List (Val α)
  affine : List ℚ
  cal_min : α
  cal_max : α
deriving DecidableEq, Repr

/-- `marker_img_array[atlas_array == roi] = value` (source line 93). -/
def assignRoi (roi : Int) (value : Val α) (d : List Int) (img : List (Val α)) :
    List (Val α) :=
  List.zipWith (fun lab old => if lab = roi then value else old) d img

/-- The `for roi in rois` loop of `map_to_atlas` (source lines 87-93):
skip label 0, look up `marker[roi - 1]` (raising `IndexError` when out of
range), and write the value into every voxel carrying that label. -/
def mapLoop (v : List (Val α)) (d : List Int) :
    List Int → List (Val α) → Except Err (List (Val α))
  | [], img => .ok img
  | roi :: rest, img =>
    if roi = 0 then mapLoop v d rest img
    else
      match pyIndex v (roi - 1) with
      | .error e => .error e
      | .ok value => mapLoop v d rest (assignRoi roi value d img)

/-- `map_to_atlas` (source lines 57-100): validate the ROI count,
compute the non-NaN extrema, run the assignment loop over the zero
array, mask NaN voxels and background voxels with `marker_min - 20000`,
and attach the extrema to the header. -/
def mapToAtlas (marker : List (Val α)) (atlas : Nifti) : Except Err (MarkerImg α) :=
  let rois := npUnique atlas.data
  if ((rois.length : Int) - 1 = (marker.length : Int)) then
    match npMin (nonNanVals marker) with
    | .error e => .error e
    | .ok mmin =>
      match npMax (nonNanVals marker) with
      | .error e => .error e
      | .ok mmax =>
        match mapLoop marker atlas.data rois
            (List.replicate atlas.data.length (Val.num 0)) with
        | .error e => .error e
        | .ok arr =>
          let arr2 := arr.map fun x => if x.isNan then Val.num (mmin - 20000) else x
          let arr3 := List.zipWith
            (fun lab x => if lab = 0 then Val.num (mmin - 20000) else x)
            atlas.data arr2
          .ok { data := arr3, affine := atlas.affine,
                cal_min := mmin, cal_max := mmax }
  else .error Err.roiCountMismatch

/-- The tail of `os.path.split`: everything after the last slash. -/
def pathTail (p : List Char) : List Char :=
  ((p.reverse).takeWhile (fun c => c ≠ '/')).reverse

/-- `os.path.splitext` restricted to a basename `t` (no slashes): split
at the last dot, unless every character before it is itself a dot (then
there is no extension, as for `.bashrc` or `..`). -/
def splitExtTail (t : List Char) : List Char × List Char :=
  let r := t.reverse
  let afterRev := r.takeWhile (fun c => c ≠ '.')
  if afterRev.length = r.length then (t, [])
  else
    let rootRev := r.drop (afterRev.length + 1)
    if rootRev.all (fun c => c = '.') then (t, [])
    else (rootRev.reverse, '.' :: afterRev.reverse)

/-- The extension of a full path, `os.path.splitext(p)[1]`: the dot must
fall inside the basename, so this is the extension of the tail. -/
def fileExt (p : List Char) : List Char :=
  (splitExtTail (pathTail p)).snd

/-- A marker table: ordered named columns (the model of the returned
`pd.DataFrame`). -/
abbrev Table (α : Type) := List (List Char × List (Val α))

/-- The dead single-column branch of `read_markers` (source lines 43-46):
one column named by `tail` — the file name including its extension. -/
def readTxt (p : List Char) (txtData : List (Val α)) : Table α :=
  [(pathTail p, txtData)]

/-- `read_markers` (source lines 14-49).  File I/O is abstracted: the
vector `np.loadtxt` would parse and the table `pd.read_csv` would parse
are passed in.  The extension whitelist is the source's literal list
`[".csv", ".tsv", ".csv"]` (lines 38-42), in which `.txt` does not
occur. -/
def readMarkers (p : List Char) (txtData : List (Val α)) (csvTbl : Table α) :
    Except Err (Table α) :=
  let ext := fileExt p
  if ext ∈ [".csv".toList, ".tsv".toList, ".csv".toList] then
    if ext = ".txt".toList then .ok (readTxt p txtData)
    else .ok csvTbl
  else .error Err.unsupportedFormat

/-- Filesystem state: the set of existing directories. -/
structure FS where
  dirs : List (List Char)
deriving DecidableEq, Repr

/-- `prepare_output` (source lines 103-113): require `out_folder` to be
an existing directory, then return `out_folder / file_name` where
`file_name` is the marker file's basename without extension, creating
that subdirectory when absent. -/
def prepareOutput (fs : FS) (outFolder markerFile : List Char) :
    Except Err (FS × List Char) :=
  if outFolder ∈ fs.dirs then
    let tail := pathTail markerFile
    let fileName := (splitExtTail tail).fst
    let outputFolder := outFolder ++ '/' :: fileName
    if outputFolder ∈ fs.dirs then .ok (fs, outputFolder)
    else .ok ({ dirs := outputFolder :: fs.dirs }, outputFolder)
  else .error Err.directoryNotFound

/-- The marker loop of `main` (source lines 158-162): process columns in
order, writing `<name>.nii.gz` per success; the first failure aborts the
run.  Returns the list of written files and the error, if any. -/
def driverLoop (atlas : Nifti) : Table α → List (List Char) × Option Err
  | [] => ([], none)
  | (name, v) :: rest =>
    match mapToAtlas v atlas with
    | .error e => ([], some e)
    | .ok _ =>
      let r := driverLoop atlas rest
      ((name ++ ".nii.gz".toList) :: r.1, r.2)

/-! ### Facts about the embedded operations -/

theorem mem_npUnique {x : Int} {l : List Int} : x ∈ npUnique l ↔ x ∈ l := by
  unfold npUnique
  rw [List.mem_insertionSort, List.mem_dedup]

theorem npUnique_nodup (l : List Int) : (npUnique l).Nodup :=
  ((List.perm_insertionSort _ _).nodup_iff).mpr l.nodup_dedup

theorem length_npUnique (l : List Int) : (npUnique l).length = l.toFinset.card := by
  have h1 : (npUnique l).toFinset = l.toFinset := by
    ext x
    simp only [List.mem_toFinset, mem_npUnique]
  rw [← h1, List.toFinset_card_of_nodup (npUnique_nodup l)]

theorem pyIndex_ok_of_getElem? {v : List (Val α)} {i : Int} (h0 : 0 ≤ i) {x : Val α}
    (h : v[i.toNat]? = some x) : pyIndex v i = .ok x := by
  simp only [pyIndex, if_neg (not_lt.mpr h0), if_pos h0, h]

theorem pyIndex_mem {v : List (Val α)} {i : Int} {x : Val α}
    (h : pyIndex v i = .ok x) : x ∈ v := by
  simp only [pyIndex] at h
  set j : Int := if i < 0 then i + (v.length : Int) else i with hj
  by_cases h0 : 0 ≤ j
  · rw [if_pos h0] at h
    cases hg : v[j.toNat]? with
    | some y => rw [hg] at h; cases h; exact List.getElem?_mem hg
    | none => rw [hg] at h; cases h
  · rw [if_neg h0] at h; cases h

theorem pyIndex_error {v : List (Val α)} {i : Int} {e : Err}
    (h : pyIndex v i = .error e) : e = Err.indexError := by
  simp only [pyIndex] at h
  set j : Int := if i < 0 then i + (v.length : Int) else i with hj
  by_cases h0 : 0 ≤ j
  · rw [if_pos h0] at h
    cases hg : v[j.toNat]? with
    | some y => rw [hg] at h; cases h
    | none => rw [hg] at h; cases h; rfl
  · rw [if_neg h0] at h; cases h; rfl

theorem foldl_min_spec (xs : List α) (a : α) :
    (xs.foldl min a = a ∨ xs.foldl min a ∈ xs) ∧
      xs.foldl min a ≤ a ∧ ∀ y ∈ xs, xs.foldl min a ≤ y := by
  induction xs generalizing a with
  | nil => simp
  | cons x xs ih =>
    obtain ⟨h1, h2, h3⟩ := ih (min a x)
    simp only [List.foldl_cons]
    refine ⟨?_, h2.trans (min_le_left a x), ?_⟩
    · rcases h1 with h1 | h1
      · rcases min_choice a x with hm | hm
        · exact Or.inl (h1.trans hm)
        · exact Or.inr (by rw [h1, hm]; exact List.mem_cons_self _ _)
      · exact Or.inr (List.mem_cons_of_mem _ h1)
    · intro y hy
      rcases List.mem_cons.mp hy with rfl | hy
      · exact h2.trans (min_le_right a y)
      · exact h3 y hy

theorem foldl_max_spec (xs : List α) (a : α) :
    (xs.foldl max a = a ∨ xs.foldl max a ∈ xs) ∧
      a ≤ xs.foldl max a ∧ ∀ y ∈ xs, y ≤ xs.foldl max a := by
  induction xs generalizing a with
  | nil => simp
  | cons x xs ih =>
    obtain ⟨h1, h2, h3⟩ := ih (max a x)
    simp only [List.foldl_cons]
    refine ⟨?_, (le_max_left a x).trans h2, ?_⟩
    · rcases h1 with h1 | h1
      · rcases max_choice a x with hm | hm
        · exact Or.inl (h1.trans hm)
        · exact Or.inr (by rw [h1, hm]; exact List.mem_cons_self _ _)
      · exact Or.inr (List.mem_cons_of_mem _ h1)
    · intro y hy
      rcases List.mem_cons.mp hy with rfl | hy
      · exact (le_max_right a y).trans h2
      · exact h3 y hy

theorem npMin_spec {l : List α} {m : α} (h : npMin l = .ok m) :
    m ∈ l ∧ ∀ x ∈ l, m ≤ x := by
  cases l with
  | nil => simp [npMin] at h
  | cons x xs =>
    have hm : xs.foldl min x = m := by
      simpa [npMin] using h
    obtain ⟨h1, h2, h3⟩ := foldl_min_spec xs x
    rw [hm] at h1 h2 h3
    constructor
    · rcases h1 with h1 | h1
      · exact h1 ▸ List.mem_cons_self _ _
      · exact List.mem_cons_of_mem _ h1
    · intro y hy
      rcases List.mem_cons.mp hy with rfl | hy
      · exact h2
      · exact h3 y hy

theorem npMax_spec {l : List α} {m : α} (h : npMax l = .ok m) :
    m ∈ l ∧ ∀ x ∈ l, x ≤ m := by
  cases l with
  | nil => simp [npMax] at h
  | cons x xs =>
    have hm : xs.foldl max x = m := by
      simpa [npMax] using h
    obtain ⟨h1, h2, h3⟩ := foldl_max_spec xs x
    rw [hm] at h1 h2 h3
    constructor
    · rcases h1 with h1 | h1
      · exact h1 ▸ List.mem_cons_self _ _
      · exact List.mem_cons_of_mem _ h1
    · intro y hy
      rcases List.mem_cons.mp hy with rfl | hy
      · exact h2
      · exact h3 y hy

theorem npMin_error {l : List α} {e : Err} (h : npMin l = .error e) :
    e = Err.valueMinEmpty := by
  cases l with
  | nil => cases h; rfl
  | cons x xs => simp [npMin] at h

theorem npMax_error {l : List α} {e : Err} (h : npMax l = .error e) :
    e = Err.valueMinEmpty := by
  cases l with
  | nil => cases h; rfl
  | cons x xs => simp [npMax] at h

theorem mapLoop_error {v : List (Val α)} {d : List Int} {e : Err} :
    ∀ {rois : List Int} {img : List (Val α)},
      mapLoop v d rois img = .error e → e = Err.indexError := by
  intro rois
  induction rois with
  | nil => intro img h; cases h
  | cons roi rest ih =>
    intro img h
    simp only [mapLoop] at h
    by_cases hroi : roi = 0
    · rw [if_pos hroi] at h
      exact ih h
    · rw [if_neg hroi] at h
      cases hp : pyIndex v (roi - 1) with
      | error e' => rw [hp] at h; cases h; exact pyIndex_error hp
      | ok value => rw [hp] at h; exact ih h

theorem mapLoop_spec (v : List (Val α)) (d : List Int) :
    ∀ (rois : List Int) (img res : List (Val α)), img.length = d.length →
      mapLoop v d rois img = .ok res →
      res.length = d.length ∧
      ∀ (i : Nat) (k : Int), d[i]? = some k →
        ((k ∈ rois ∧ k ≠ 0 → ∃ x, pyIndex v (k - 1) = .ok x ∧ res[i]? = some x) ∧
         (k ∉ rois ∨ k = 0 → res[i]? = img[i]?)) := by
  intro rois
  induction rois with
  | nil =>
    intro img res hlen h
    cases h
    exact ⟨hlen, fun i k _ => ⟨fun hc => absurd hc.1 (List.not_mem_nil k), fun _ => rfl⟩⟩
  | cons roi rest ih =>
    intro img res hlen h
    simp only [mapLoop] at h
    by_cases hroi : roi = 0
    · rw [if_pos hroi] at h
      obtain ⟨hlen', hchar⟩ := ih img res hlen h
      refine ⟨hlen', fun i k hk => ?_⟩
      obtain ⟨h1, h2⟩ := hchar i k hk
      constructor
      · rintro ⟨hmem, hk0⟩
        rcases List.mem_cons.mp hmem with rfl | hmem'
        · exact absurd hroi hk0
        · exact h1 ⟨hmem', hk0⟩
      · rintro (hnmem | hk0)
        · exact h2 (Or.inl fun hm => hnmem (List.mem_cons_of_mem _ hm))
        · exact h2 (Or.inr hk0)
    · rw [if_neg hroi] at h
      cases hp : pyIndex v (roi - 1) with
      | error e => rw [hp] at h; cases h
      | ok value =>
        rw [hp] at h
        have hlen2 : (assignRoi roi value d img).length = d.length := by
          simp [assignRoi, List.length_zipWith, hlen]
        obtain ⟨hlen', hchar⟩ := ih (assignRoi roi value d img) res hlen2 h
        refine ⟨hlen', fun i k hk => ?_⟩
        have hi : i < d.length := (List.getElem?_eq_some.mp hk).1
        have hio : i < img.length := by omega
        obtain ⟨o, ho⟩ : ∃ o, img[i]? = some o :=
          ⟨img[i], List.getElem?_eq_getElem hio⟩
        have hassign : (assignRoi roi value d img)[i]? =
            some (if k = roi then value else o) := by
          simp [assignRoi, List.getElem?_zipWith, hk, ho]
        obtain ⟨h1, h2⟩ := hchar i k hk
        constructor
        · rintro ⟨hmem, hk0⟩
          rcases List.mem_cons.mp hmem with rfl | hmem'
          · by_cases hkr : k ∈ rest
            · exact h1 ⟨hkr, hk0⟩
            · refine ⟨value, hp, ?_⟩
              rw [h2 (Or.inl hkr), hassign, if_pos rfl]
          · exact h1 ⟨hmem', hk0⟩
        · rintro (hnmem | hk0)
          · have hkr : k ≠ roi := fun hh => hnmem (hh ▸ List.mem_cons_self _ _)
            rw [h2 (Or.inl fun hm => hnmem (List.mem_cons_of_mem _ hm)), hassign,
              if_neg hkr, ho]
          · have hkr : k ≠ roi := fun hh => hroi (hh ▸ hk0)
            rw [h2 (Or.inr hk0), hassign, if_neg hkr, ho]

theorem mapToAtlas_ok_elim {v : List (Val α)} {atlas : Nifti} {img : MarkerImg α}
    (h : mapToAtlas v atlas = .ok img) :
    ∃ mmin mmax arr,
      npMin (nonNanVals v) = .ok mmin ∧
      npMax (nonNanVals v) = .ok mmax ∧
      mapLoop v atlas.data (npUnique atlas.data)
        (List.replicate atlas.data.length (Val.num 0)) = .ok arr ∧
      ((npUnique atlas.data).length : Int) - 1 = (v.length : Int) ∧
      img = { data := List.zipWith
                (fun lab x => if lab = 0 then Val.num (mmin - 20000) else x)
                atlas.data (arr.map fun x => if x.isNan then Val.num (mmin - 20000) else x),
              affine := atlas.affine, cal_min := mmin, cal_max := mmax } := by
  simp only [mapToAtlas] at h
  by_cases hc : ((npUnique atlas.data).length : Int) - 1 = (v.length : Int)
  · rw [if_pos hc] at h
    cases hmin : npMin (nonNanVals v) with
    | error e => rw [hmin] at h; cases h
    | ok mmin =>
      rw [hmin] at h
      cases hmax : npMax (nonNanVals v) with
      | error e => rw [hmax] at h; cases h
      | ok mmax =>
        rw [hmax] at h
        cases hloop : mapLoop v atlas.data (npUnique atlas.data)
            (List.replicate atlas.data.length (Val.num 0)) with
        | error e => rw [hloop] at h; cases h
        | ok arr =>
          rw [hloop] at h
          cases h
          exact ⟨mmin, mmax, arr, rfl, rfl, rfl, hc, rfl⟩
  · rw [if_neg hc] at h
    cases h

theorem mapToAtlas_data_spec {v : List (Val α)} {atlas : Nifti} {img : MarkerImg α}
    (h : mapToAtlas v atlas = .ok img) {i : Nat} {k : Int}
    (hk : atlas.data[i]? = some k) :
    ∃ mmin, npMin (nonNanVals v) = .ok mmin ∧
      (k = 0 → img.data[i]? = some (Val.num (mmin - 20000))) ∧
      (k ≠ 0 → ∃ x, pyIndex v (k - 1) = .ok x ∧
        img.data[i]? = some (if x.isNan then Val.num (mmin - 20000) else x)) := by
  obtain ⟨mmin, mmax, arr, hmin, hmax, hloop, hc, himg⟩ := mapToAtlas_ok_elim h
  have hi : i < atlas.data.length := (List.getElem?_eq_some.mp hk).1
  have hrep : (List.replicate atlas.data.length (Val.num (0:α))).length =
      atlas.data.length := by simp
  obtain ⟨hlenarr, hchar⟩ :=
    mapLoop_spec v atlas.data (npUnique atlas.data) _ arr hrep hloop
  obtain ⟨h1, h2⟩ := hchar i k hk
  refine ⟨mmin, hmin, ?_, ?_⟩
  · intro hk0
    have harr : arr[i]? = some (Val.num 0) := by
      rw [h2 (Or.inr hk0), List.getElem?_replicate, if_pos hi]
    rw [himg]
    simp [List.getElem?_zipWith, List.getElem?_map, hk, harr, Val.isNan, hk0]
  · intro hk0
    have hmemd : k ∈ atlas.data := List.getElem?_mem hk
    obtain ⟨x, hpy, harr⟩ := h1 ⟨mem_npUnique.mpr hmemd, hk0⟩
    refine ⟨x, hpy, ?_⟩
    rw [himg]
    simp [List.getElem?_zipWith, List.getElem?_map, hk, harr, hk0]

theorem mapToAtlas_mismatch_iff (v : List (Val α)) (atlas : Nifti) :
    mapToAtlas v atlas = .error Err.roiCountMismatch ↔
      ((npUnique atlas.data).length : Int) - 1 ≠ (v.length : Int) := by
  constructor
  · intro h hc
    simp only [mapToAtlas, if_pos hc] at h
    cases hmin : npMin (nonNanVals v) with
    | error e =>
      rw [hmin] at h
      cases h
      exact absurd (npMin_error hmin) (by intro hh; cases hh)
    | ok mmin =>
      rw [hmin] at h
      cases hmax : npMax (nonNanVals v) with
      | error e =>
        rw [hmax] at h
        cases h
        exact absurd (npMax_error hmax) (by intro hh; cases hh)
      | ok mmax =>
        rw [hmax] at h
        cases hloop : mapLoop v atlas.data (npUnique atlas.data)
            (List.replicate atlas.data.length (Val.num 0)) with
        | error e =>
          rw [hloop] at h
          cases h
          exact absurd (mapLoop_error hloop) (by intro hh; cases hh)
        | ok arr => rw [hloop] at h; cases h
  · intro h
    simp only [mapToAtlas, if_neg h]

theorem driverLoop_stops {atlas : Nifti} {e : Err} :
    ∀ {markers : Table α} {i : Nat} {name : List Char} {v : List (Val α)},
      markers[i]? = some (name, v) → mapToAtlas v atlas = .error e →
      (driverLoop atlas markers).1.length ≤ i := by
  intro markers
  induction markers with
  | nil => intro i name v hi _; simp at hi
  | cons hd rest ih =>
    intro i name v hi he
    obtain ⟨nm, w⟩ := hd
    cases i with
    | zero =>
      simp only [List.getElem?_cons_zero, Option.some.injEq] at hi
      obtain ⟨rfl, rfl⟩ := Prod.mk.injEq .. ▸ hi
      simp [driverLoop, he]
    | succ i' =>
      simp only [List.getElem?_cons_succ] at hi
      simp only [driverLoop]
      cases hm : mapToAtlas w atlas with
      | error e' => simp
      | ok res =>
        have := ih hi he
        simp only [List.length_cons]
        omega

theorem length_npUnique_of_mem_zero {d : List Int} (h0 : (0:Int) ∈ d) :
    (npUnique d).length = (d.toFinset.filter (fun x => x ≠ 0)).card + 1 := by
  rw [length_npUnique]
  have hsplit := Finset.filter_card_add_filter_neg_card_eq_card
    (s := d.toFinset) (p := fun x => x ≠ 0)
  have hzero : d.toFinset.filter (fun x => ¬ x ≠ 0) = {0} := by
    ext x
    simp only [Finset.mem_filter, List.mem_toFinset, not_not, Finset.mem_singleton]
    constructor
    · exact fun hx => hx.2
    · rintro rfl; exact ⟨h0, rfl⟩
  rw [hzero] at hsplit
  simp only [Finset.card_singleton] at hsplit
  omega

theorem length_npUnique_of_not_mem_zero {d : List Int} (h0 : (0:Int) ∉ d) :
    (npUnique d).length = (d.toFinset.filter (fun x => x ≠ 0)).card := by
  rw [length_npUnique]
  congr 1
  symm
  rw [Finset.filter_eq_self]
  intro x hx
  rintro rfl
  exact h0 (List.mem_toFinset.mp hx)

/-! ### Claims -/

/-- C1: for every marker vector `v` and labeled volume that pass the length
validation (so `map_to_atlas` returns a mapped volume), and for every voxel
`i` whose atlas label is `k ≥ 1`, if `v[k-1]` is a non-NaN value `q` then the
mapped volume holds `q` at voxel `i`. -/
theorem positional_correspondence (v : List (Val α)) (atlas : Nifti)
    (img : MarkerImg α) (hok : mapToAtlas v atlas = .ok img) (i : Nat) (k : Int)
    (hk : atlas.data[i]? = some k) (hk1 : 1 ≤ k) (q : α)
    (hq : v[(k - 1).toNat]? = some (Val.num q)) :
    img.data[i]? = some (Val.num q) := by
  obtain ⟨mmin, hmin, hbg, hnz⟩ := mapToAtlas_data_spec hok hk
  obtain ⟨x, hpy, hval⟩ := hnz (by omega)
  have hpy2 : pyIndex v (k - 1) = .ok (Val.num q) :=
    pyIndex_ok_of_getElem? (by omega) hq
  have hx : x = Val.num q := by rw [hpy] at hpy2; cases hpy2; rfl
  rw [hval, hx]
  simp [Val.isNan]

/-- C1 witness: mapping `[10, 20]` over the atlas `[1, 2, 0, 0]` puts `10`
at the voxel labeled `1`. -/
theorem positional_correspondence_witness :
    mapToAtlas [Val.num (10:ℤ), Val.num 20] ⟨[1, 2, 0, 0], [1]⟩ =
      .ok ⟨[Val.num 10, Val.num 20, Val.num (-19990), Val.num (-19990)], [1], 10, 20⟩ ∧
    (⟨[Val.num 10, Val.num 20, Val.num (-19990), Val.num (-19990)], [1], 10, 20⟩ :
        MarkerImg ℤ).data[0]? = some (Val.num 10) :=
  ⟨by decide,
    positional_correspondence [Val.num (10:ℤ), Val.num 20] ⟨[1, 2, 0, 0], [1]⟩
      ⟨[Val.num 10, Val.num 20, Val.num (-19990), Val.num (-19990)], [1], 10, 20⟩
      (by decide) 0 1 (by decide) (by decide) 10 (by decide)⟩

/-- C2: whenever `map_to_atlas` returns a mapped volume (which requires at
least one non-NaN entry, since `np.min` is taken over the non-NaN values),
every background voxel (label 0) and every voxel whose sourced marker value
is NaN holds exactly the sentinel `marker_min - 20000`, where `marker_min`
is the minimum over the non-NaN entries of the vector. -/
theorem background_and_nan_masked (v : List (Val α)) (atlas : Nifti)
    (img : MarkerImg α) (hok : mapToAtlas v atlas = .ok img) (i : Nat) (k : Int)
    (hk : atlas.data[i]? = some k)
    (hcase : k = 0 ∨ (k ≠ 0 ∧ pyIndex v (k - 1) = .ok Val.nan)) :
    ∃ m, (m ∈ nonNanVals v ∧ ∀ x ∈ nonNanVals v, m ≤ x) ∧
      img.data[i]? = some (Val.num (m - 20000)) := by
  obtain ⟨mmin, hmin, hbg, hnz⟩ := mapToAtlas_data_spec hok hk
  refine ⟨mmin, npMin_spec hmin, ?_⟩
  rcases hcase with rfl | ⟨hk0, hnan⟩
  · exact hbg rfl
  · obtain ⟨x, hpy, hval⟩ := hnz hk0
    have hx : x = Val.nan := by rw [hpy] at hnan; cases hnan; rfl
    rw [hval, hx]
    simp [Val.isNan]

/-- C2 witness: mapping `[10, NaN]` over the atlas `[1, 2, 0, 0]`, the voxel
labeled `2` (whose sourced value is NaN) holds the sentinel `10 - 20000`. -/
theorem background_and_nan_masked_witness :
    ∃ m, (m ∈ nonNanVals [Val.num (10:ℤ), Val.nan] ∧
        ∀ x ∈ nonNanVals [Val.num (10:ℤ), Val.nan], m ≤ x) ∧
      (⟨[Val.num 10, Val.num (-19990), Val.num (-19990), Val.num (-19990)],
          [1], 10, 10⟩ : MarkerImg ℤ).data[1]? = some (Val.num (m - 20000)) :=
  background_and_nan_masked [Val.num (10:ℤ), Val.nan] ⟨[1, 2, 0, 0], [1]⟩
    ⟨[Val.num 10, Val.num (-19990), Val.num (-19990), Val.num (-19990)], [1], 10, 10⟩
    (by decide) 1 2 (by decide) (Or.inr ⟨by decide, by decide⟩)

/-- C5: whenever `map_to_atlas` returns a mapped volume, it has the same
shape (voxel count) and the same spatial affine as the input atlas. -/
theorem shape_and_affine_preserved (v : List (Val α)) (atlas : Nifti)
    (img : MarkerImg α) (hok : mapToAtlas v atlas = .ok img) :
    img.data.length = atlas.data.length ∧ img.affine = atlas.affine := by
  obtain ⟨mmin, mmax, arr, hmin, hmax, hloop, hc, himg⟩ := mapToAtlas_ok_elim hok
  have hrep : (List.replicate atlas.data.length (Val.num (0:α))).length =
      atlas.data.length := by simp
  obtain ⟨hlenarr, _⟩ := mapLoop_spec v atlas.data _ _ arr hrep hloop
  rw [himg]
  refine ⟨?_, rfl⟩
  simp [List.length_zipWith, hlenarr]

/-- C5 witness: a concrete successful run preserves the length-4 shape and
the affine `[1]`. -/
theorem shape_and_affine_preserved_witness :
    (⟨[Val.num 10, Val.num 20, Val.num (-19990), Val.num (-19990)], [1], 10, 20⟩ :
        MarkerImg ℤ).data.length = (Nifti.mk [1, 2, 0, 0] [1]).data.length ∧
    (⟨[Val.num 10, Val.num 20, Val.num (-19990), Val.num (-19990)], [1], 10, 20⟩ :
        MarkerImg ℤ).affine = (Nifti.mk [1, 2, 0, 0] [1]).affine :=
  shape_and_affine_preserved [Val.num (10:ℤ), Val.num 20] ⟨[1, 2, 0, 0], [1]⟩
    ⟨[Val.num 10, Val.num 20, Val.num (-19990), Val.num (-19990)], [1], 10, 20⟩
    (by decide)

/-- C6: whenever `map_to_atlas` returns a mapped volume, its `cal_min`
header is the minimum and its `cal_max` header the maximum over the non-NaN
entries of the marker vector (the true data extrema, not the sentinel). -/
theorem cal_range_is_true_extrema (v : List (Val α)) (atlas : Nifti)
    (img : MarkerImg α) (hok : mapToAtlas v atlas = .ok img) :
    (img.cal_min ∈ nonNanVals v ∧ ∀ x ∈ nonNanVals v, img.cal_min ≤ x) ∧
    (img.cal_max ∈ nonNanVals v ∧ ∀ x ∈ nonNanVals v, x ≤ img.cal_max) := by
  obtain ⟨mmin, mmax, arr, hmin, hmax, hloop, hc, himg⟩ := mapToAtlas_ok_elim hok
  rw [himg]
  exact ⟨npMin_spec hmin, npMax_spec hmax⟩

/-- C6 witness: on the concrete run with marker `[10, 20]`, the header range
is the true extrema `10` and `20`. -/
theorem cal_range_is_true_extrema_witness :
    ((⟨[Val.num 10, Val.num 20, Val.num (-19990), Val.num (-19990)], [1], 10, 20⟩ :
        MarkerImg ℤ).cal_min ∈ nonNanVals [Val.num (10:ℤ), Val.num 20] ∧
      ∀ x ∈ nonNanVals [Val.num (10:ℤ), Val.num 20],
        (⟨[Val.num 10, Val.num 20, Val.num (-19990), Val.num (-19990)], [1], 10, 20⟩ :
          MarkerImg ℤ).cal_min ≤ x) ∧
    ((⟨[Val.num 10, Val.num 20, Val.num (-19990), Val.num (-19990)], [1], 10, 20⟩ :
        MarkerImg ℤ).cal_max ∈ nonNanVals [Val.num (10:ℤ), Val.num 20] ∧
      ∀ x ∈ nonNanVals [Val.num (10:ℤ), Val.num 20],
        x ≤ (⟨[Val.num 10, Val.num 20, Val.num (-19990), Val.num (-19990)], [1], 10, 20⟩ :
          MarkerImg ℤ).cal_max) :=
  cal_range_is_true_extrema [Val.num (10:ℤ), Val.num 20] ⟨[1, 2, 0, 0], [1]⟩
    ⟨[Val.num 10, Val.num 20, Val.num (-19990), Val.num (-19990)], [1], 10, 20⟩
    (by decide)

/-- C8: whenever `map_to_atlas` returns a mapped volume, a voxel with a
nonzero label whose sourced marker value is a non-NaN number `q` never holds
the sentinel `m - 20000`, where `m` is the minimum over the non-NaN entries
of the vector. -/
theorem sentinel_exclusivity (v : List (Val α)) (atlas : Nifti)
    (img : MarkerImg α) (hok : mapToAtlas v atlas = .ok img) (i : Nat) (k : Int)
    (hk : atlas.data[i]? = some k) (hk0 : k ≠ 0) (q : α)
    (hq : pyIndex v (k - 1) = .ok (Val.num q)) (m : α)
    (hm : m ∈ nonNanVals v ∧ ∀ x ∈ nonNanVals v, m ≤ x) :
    img.data[i]? ≠ some (Val.num (m - 20000)) := by
  obtain ⟨mmin, hmin, hbg, hnz⟩ := mapToAtlas_data_spec hok hk
  obtain ⟨x, hpy, hval⟩ := hnz hk0
  have hx : x = Val.num q := by rw [hpy] at hq; cases hq; rfl
  rw [hval, hx]
  simp only [Val.isNan, Bool.false_eq_true, if_false, ne_eq, Option.some.injEq,
    Val.num.injEq]
  intro hcontra
  have hqmem : q ∈ nonNanVals v :=
    List.mem_filterMap.mpr ⟨Val.num q, pyIndex_mem hq, rfl⟩
  have hle : m ≤ q := hm.2 q hqmem
  have h20 : (0:α) < 20000 := by norm_num
  rw [hcontra] at hle
  exact absurd (lt_of_le_of_lt hle (sub_lt_self m h20)) (lt_irrefl m)

/-- C8 witness: on the concrete run with marker `[10, 20]`, the voxel
labeled `1` (value `10`) differs from the sentinel `10 - 20000`. -/
theorem sentinel_exclusivity_witness :
    (⟨[Val.num 10, Val.num 20, Val.num (-19990), Val.num (-19990)], [1], 10, 20⟩ :
        MarkerImg ℤ).data[0]? ≠ some (Val.num ((10:ℤ) - 20000)) :=
  sentinel_exclusivity [Val.num (10:ℤ), Val.num 20] ⟨[1, 2, 0, 0], [1]⟩
    ⟨[Val.num 10, Val.num 20, Val.num (-19990), Val.num (-19990)], [1], 10, 20⟩
    (by decide) 0 1 (by decide) (by decide) 10 (by decide) 10
    ⟨by decide, by decide⟩

/-- C4 counterexample: the atlas `[1, 2]` has two distinct nonzero labels
and no background voxel; the length-1 marker `[5]` mismatches that ROI
count, yet `map_to_atlas` does not fail with the ROI-count-mismatch error —
the off-by-one check `len(unique) - 1 == len(marker)` passes and the run
fails later with an `IndexError` instead. -/
theorem roi_count_mismatch_cex :
    ((Nifti.mk [1, 2] [1]).data.toFinset.filter (fun x => x ≠ 0)).card ≠
      ([Val.num (5:ℤ)] : List (Val ℤ)).length ∧
    mapToAtlas [Val.num (5:ℤ)] ⟨[1, 2], [1]⟩ = .error Err.indexError ∧
    mapToAtlas [Val.num (5:ℤ)] ⟨[1, 2], [1]⟩ ≠ .error Err.roiCountMismatch := by
  decide

/-- C4 (amended): for every marker vector of length `N` and every labeled
volume that contains at least one background (label 0) voxel and whose
number of distinct nonzero labels is not `N`, `map_to_atlas` fails with the
ROI-count-mismatch error, and the driver writes no output file for that
marker. -/
theorem roi_count_mismatch_rejects (v : List (Val α)) (atlas : Nifti)
    (h0 : (0:Int) ∈ atlas.data) (R : Nat)
    (hR : R = (atlas.data.toFinset.filter (fun x => x ≠ 0)).card)
    (hne : v.length ≠ R) (markers : Table α) (i : Nat) (name : List Char)
    (hi : markers[i]? = some (name, v)) :
    mapToAtlas v atlas = .error Err.roiCountMismatch ∧
    (driverLoop atlas markers).1.length ≤ i := by
  have hmm : mapToAtlas v atlas = .error Err.roiCountMismatch := by
    rw [mapToAtlas_mismatch_iff, length_npUnique_of_mem_zero h0, ← hR]
    intro hcontra
    apply hne
    omega
  exact ⟨hmm, driverLoop_stops hi hmm⟩

/-- C4 witness: atlas `[0, 1, 2]` has two distinct nonzero labels; the
length-1 marker is rejected with the mismatch error and no file is written
for it. -/
theorem roi_count_mismatch_rejects_witness :
    mapToAtlas [Val.num (5:ℤ)] ⟨[0, 1, 2], [1]⟩ = .error Err.roiCountMismatch ∧
    (driverLoop ⟨[0, 1, 2], [1]⟩ [(['A'], [Val.num (5:ℤ)])]).1.length ≤ 0 :=
  roi_count_mismatch_rejects [Val.num (5:ℤ)] ⟨[0, 1, 2], [1]⟩ (by decide) 2
    (by decide) (by decide) [(['A'], [Val.num (5:ℤ)])] 0 ['A'] (by decide)

/-- C10: for a labeled volume with no background voxel and `R` distinct
(all nonzero) labels, the length validation of `map_to_atlas` rejects a
marker of length `R` with the mismatch error, and passes exactly the
vectors of length `R - 1`, because it compares against the count of all
distinct labels minus one rather than the count of distinct nonzero
labels. -/
theorem no_background_off_by_one (v : List (Val α)) (atlas : Nifti)
    (h0 : (0:Int) ∉ atlas.data) (R : Nat)
    (hR : R = (atlas.data.toFinset.filter (fun x => x ≠ 0)).card) :
    (v.length = R → mapToAtlas v atlas = .error Err.roiCountMismatch) ∧
    (mapToAtlas v atlas ≠ .error Err.roiCountMismatch ↔
      (v.length : Int) = (R : Int) - 1) := by
  have hlen : (npUnique atlas.data).length = R := by
    rw [length_npUnique_of_not_mem_zero h0, hR]
  constructor
  · intro hv
    rw [mapToAtlas_mismatch_iff, hlen]
    omega
  · rw [ne_eq, mapToAtlas_mismatch_iff, hlen]
    constructor
    · intro hc
      omega
    · intro hc
      omega

/-- C10 witness: atlas `[1, 2]` (no background, `R = 2`): the length-2
marker `[5, 6]` is rejected with the mismatch error, and acceptance is
equivalent to length `R - 1 = 1`. -/
theorem no_background_off_by_one_witness :
    (([Val.num (5:ℤ), Val.num 6] : List (Val ℤ)).length = 2 →
      mapToAtlas [Val.num (5:ℤ), Val.num 6] ⟨[1, 2], [1]⟩ =
        .error Err.roiCountMismatch) ∧
    (mapToAtlas [Val.num (5:ℤ), Val.num 6] ⟨[1, 2], [1]⟩ ≠
        .error Err.roiCountMismatch ↔
      (([Val.num (5:ℤ), Val.num 6] : List (Val ℤ)).length : Int) = (2 : Int) - 1) :=
  no_background_off_by_one [Val.num (5:ℤ), Val.num 6] ⟨[1, 2], [1]⟩ (by decide) 2
    (by decide)

/-- C3: evaluation at the failing input.  The path `markers.txt` has the
plain-text extension `.txt`, which the spec whitelists, yet `read_markers`
fails with the unsupported-format error: the source's whitelist literal is
`[".csv", ".tsv", ".csv"]`, omitting `.txt` although the docstring, the
assertion message and the dead `.txt` branch all intend it. -/
theorem txt_whitelist_eval :
    fileExt ("markers.txt".toList) = ".txt".toList ∧
    readMarkers ("markers.txt".toList) [Val.num (1:ℤ), Val.num 2] [] =
      .error Err.unsupportedFormat := by
  decide

/-- C7 counterexample: the path `m.txt` carrying five numbers has the
single-column plain-text extension `.txt`, yet `read_markers` does not
return a one-column table at all — it fails with the unsupported-format
error (the whitelist literal at lines 38-42 omits `.txt`).  Moreover the
claim fails on a second, independent count: the single-column branch
itself (lines 43-46, modelled by `readTxt`) names its column `m.txt` —
the full file name `tail` including the extension (line 45) — which is
not the base name `m` without extension that the claim states. -/
theorem txt_single_column_cex :
    fileExt ("m.txt".toList) = ".txt".toList ∧
    readMarkers ("m.txt".toList)
      [Val.num (1:ℤ), Val.num 2, Val.num 3, Val.num 4, Val.num 5] [] =
      .error Err.unsupportedFormat ∧
    readTxt ("m.txt".toList)
      [Val.num (1:ℤ), Val.num 2, Val.num 3, Val.num 4, Val.num 5] =
      [("m.txt".toList,
        [Val.num (1:ℤ), Val.num 2, Val.num 3, Val.num 4, Val.num 5])] ∧
    ("m.txt".toList : List Char) ≠ "m".toList := by
  decide

/-- C7 (amended): for every path whose extension is `.txt`, `read_markers`
fails with the unsupported-format error (the whitelist contains only `.csv`
and `.tsv`, so the single-column branch is unreachable). -/
theorem txt_extension_unsupported (p : List Char) (txtData : List (Val α))
    (csvTbl : Table α) (hext : fileExt p = ".txt".toList) :
    readMarkers p txtData csvTbl = .error Err.unsupportedFormat := by
  simp only [readMarkers, hext]
  rw [if_neg (by decide)]

/-- C7 witness: the `.txt` path `m2.txt` is rejected. -/
theorem txt_extension_unsupported_witness :
    readMarkers ("m2.txt".toList) ([] : List (Val ℤ)) [] =
      .error Err.unsupportedFormat :=
  txt_extension_unsupported ("m2.txt".toList) [] [] (by decide)

/-- C9: `prepare_output` fails with the directory-not-found error when the
output folder is not an existing directory; otherwise it returns the
subdirectory of the output folder named after the marker file's base name
with the extension stripped, creating it exactly when it is absent. -/
theorem prepare_output_contract (fs : FS) (outFolder markerFile : List Char) :
    (outFolder ∉ fs.dirs →
      prepareOutput fs outFolder markerFile = .error Err.directoryNotFound) ∧
    (outFolder ∈ fs.dirs →
      ∃ fs', prepareOutput fs outFolder markerFile =
          .ok (fs', outFolder ++ '/' :: (splitExtTail (pathTail markerFile)).fst) ∧
        ((outFolder ++ '/' :: (splitExtTail (pathTail markerFile)).fst) ∈ fs.dirs →
          fs' = fs) ∧
        ((outFolder ++ '/' :: (splitExtTail (pathTail markerFile)).fst) ∉ fs.dirs →
          fs'.dirs =
            (outFolder ++ '/' :: (splitExtTail (pathTail markerFile)).fst) :: fs.dirs)) := by
  constructor
  · intro h
    simp only [prepareOutput, if_neg h]
  · intro h
    simp only [prepareOutput, if_pos h]
    by_cases hsub : (outFolder ++ '/' :: (splitExtTail (pathTail markerFile)).fst) ∈ fs.dirs
    · exact ⟨fs, by rw [if_pos hsub], fun _ => rfl, fun hc => absurd hsub hc⟩
    · exact ⟨⟨(outFolder ++ '/' :: (splitExtTail (pathTail markerFile)).fst) :: fs.dirs⟩,
        by rw [if_neg hsub], fun hc => absurd hc hsub, fun _ => rfl⟩

/-- C9 witness: with the existing directory `o` and marker file `m.t`, the
contract instantiates concretely (the subdirectory is `o/m`). -/
theorem prepare_output_contract_witness :
    ((['o'] ∉ (FS.mk [['o']]).dirs →
      prepareOutput ⟨[['o']]⟩ ['o'] ['m', '.', 't'] = .error Err.directoryNotFound) ∧
    (['o'] ∈ (FS.mk [['o']]).dirs →
      ∃ fs', prepareOutput ⟨[['o']]⟩ ['o'] ['m', '.', 't'] =
          .ok (fs', ['o'] ++ '/' :: (splitExtTail (pathTail ['m', '.', 't'])).fst) ∧
        ((['o'] ++ '/' :: (splitExtTail (pathTail ['m', '.', 't'])).fst) ∈
            (FS.mk [['o']]).dirs → fs' = FS.mk [['o']]) ∧
        ((['o'] ++ '/' :: (splitExtTail (pathTail ['m', '.', 't'])).fst) ∉
            (FS.mk [['o']]).dirs →
          fs'.dirs = (['o'] ++ '/' :: (splitExtTail (pathTail ['m', '.', 't'])).fst) ::
            (FS.mk [['o']]).dirs))) :=
  prepare_output_contract ⟨[['o']]⟩ ['o'] ['m', '.', 't']

end Marker2Nii
